import Mathlib

/-!
Verification of the accumulator-based aggregation module
(`src/python/ray/data/aggregate.py`) against its specification.

Python values and accumulators are shallowly embedded: numeric values are
rationals, Python lists are Lean lists, fallible constructors return
`Except`, and in-place mutation of argument lists is made observable by
"trace" variants that return the post-call contents of both arguments
alongside the returned value.
-/

/-- Scalar values that can reach the Quantile merge: Python `None`, strings
(the code treats the empty string as a value to drop), and numbers. -/
inductive PyVal where
  | none : PyVal
  | str : String → PyVal
  | num : ℚ → PyVal
deriving DecidableEq, Repr

/-- Operand of `Quantile.__init__.merge` (src lines 384-402): either a Python
list of observed values or a lone scalar. -/
inductive QuantAcc where
  | lst : List PyVal → QuantAcc
  | scl : PyVal → QuantAcc
deriving DecidableEq, Repr

/-- Value-level model of `Quantile.__init__.merge` (src lines 384-402).
Branches follow the source: list/list extends the first list with the second;
list/scalar appends the scalar to the list when it `is not None` and `!= ""`;
two scalars build a fresh list from whichever of them pass the same test. -/
def quantMerge (a b : QuantAcc) : QuantAcc :=
  match a, b with
  | .lst la, .lst lb => .lst (la ++ lb)
  | .lst la, .scl y =>
      if y ≠ PyVal.none ∧ y ≠ PyVal.str "" then .lst (la ++ [y]) else .lst la
  | .scl x, .lst lb =>
      if x ≠ PyVal.none ∧ x ≠ PyVal.str "" then .lst (lb ++ [x]) else .lst lb
  | .scl x, .scl y =>
      .lst ((if x ≠ PyVal.none ∧ x ≠ PyVal.str "" then [x] else []) ++
            (if y ≠ PyVal.none ∧ y ≠ PyVal.str "" then [y] else []))

/-- Operational model of `Quantile.__init__.merge` (src lines 384-402) that
also tracks the post-call contents of both arguments, as the triple
(returned value, `a` after the call, `b` after the call). The source mutates
the receiving list in place (`a.extend(b)` / `a.append(b)` / `b.append(a)`)
and returns that same list object; only the scalar/scalar branch allocates a
fresh list `ls`. -/
def quantMergeTrace (a b : QuantAcc) : QuantAcc × QuantAcc × QuantAcc :=
  match a, b with
  | .lst la, .lst lb => (.lst (la ++ lb), .lst (la ++ lb), .lst lb)
  | .lst la, .scl y =>
      if y ≠ PyVal.none ∧ y ≠ PyVal.str "" then
        (.lst (la ++ [y]), .lst (la ++ [y]), .scl y)
      else (.lst la, .lst la, .scl y)
  | .scl x, .lst lb =>
      if x ≠ PyVal.none ∧ x ≠ PyVal.str "" then
        (.lst (lb ++ [x]), .scl x, .lst (lb ++ [x]))
      else (.lst lb, .scl x, .lst lb)
  | .scl x, .scl y =>
      (.lst ((if x ≠ PyVal.none ∧ x ≠ PyVal.str "" then [x] else []) ++
             (if y ≠ PyVal.none ∧ y ≠ PyVal.str "" then [y] else [])),
       .scl x, .scl y)

/-- Model of `Std.__init__.merge` (src lines 275-290); the accumulator
`[M2, mean, count]` is a rational triple. -/
def stdMerge (a b : ℚ × ℚ × ℚ) : ℚ × ℚ × ℚ :=
  let delta := b.2.1 - a.2.1
  let count := a.2.2 + b.2.2
  let mean := (a.2.1 * a.2.2 + b.2.1 * b.2.2) / count
  let M2 := a.1 + b.1 + delta ^ 2 * a.2.2 * b.2.2 / count
  (M2, mean, count)

/-- Operational model of `Std.__init__.merge` (src lines 275-290) tracking the
post-call contents of both arguments: the body only destructures the two
argument lists and returns a freshly allocated `[M2, mean, count]`, so both
arguments are returned unchanged. -/
def stdMergeTrace (a b : ℚ × ℚ × ℚ) :
    (ℚ × ℚ × ℚ) × (ℚ × ℚ × ℚ) × (ℚ × ℚ × ℚ) :=
  ((a.1 + b.1 + (b.2.1 - a.2.1) ^ 2 * a.2.2 * b.2.2 / (a.2.2 + b.2.2),
    (a.2.1 * a.2.2 + b.2.1 * b.2.2) / (a.2.2 + b.2.2),
    a.2.2 + b.2.2),
   a, b)

/-- C10: in the base Quantile merge, a scalar second operand is appended to the
list first operand exactly when it is neither `None` nor the empty string;
otherwise it is silently dropped and the list is returned unchanged. -/
theorem quantile_merge_scalar_filter (a : List PyVal) (b : PyVal) :
    quantMerge (QuantAcc.lst a) (QuantAcc.scl b) =
      QuantAcc.lst
        (if b ≠ PyVal.none ∧ b ≠ PyVal.str "" then a ++ [b] else a) := by
  simp only [quantMerge]
  split <;> rfl

/-- C3 fails on the code: Quantile's merge executes `a.extend(b); return a`,
so after `merge([1], [2])` the first accumulator has been mutated in place to
`[1, 2]` rather than left unchanged. -/
theorem quantMerge_mutates_first_argument :
    (quantMergeTrace (QuantAcc.lst [PyVal.num 1])
        (QuantAcc.lst [PyVal.num 2])).2.1 ≠ QuantAcc.lst [PyVal.num 1] := by
  decide

/-- C3 amended: Std's merge leaves both arguments unchanged, and Quantile's
merge leaves scalar operands and the non-returned list unchanged, but the list
operand whose storage Quantile's merge returns is mutated in place (extended
with the other list, or with a kept scalar appended). -/
theorem merge_inplace_mutation_amended :
    (∀ a b : ℚ × ℚ × ℚ, stdMergeTrace a b = (stdMerge a b, a, b)) ∧
    (∀ la lb : List PyVal,
        quantMergeTrace (QuantAcc.lst la) (QuantAcc.lst lb) =
          (QuantAcc.lst (la ++ lb), QuantAcc.lst (la ++ lb),
           QuantAcc.lst lb)) ∧
    (∀ (la : List PyVal) (y : PyVal),
        quantMergeTrace (QuantAcc.lst la) (QuantAcc.scl y) =
          (QuantAcc.lst
             (if y ≠ PyVal.none ∧ y ≠ PyVal.str "" then la ++ [y] else la),
           QuantAcc.lst
             (if y ≠ PyVal.none ∧ y ≠ PyVal.str "" then la ++ [y] else la),
           QuantAcc.scl y)) ∧
    (∀ (x : PyVal) (lb : List PyVal),
        quantMergeTrace (QuantAcc.scl x) (QuantAcc.lst lb) =
          (QuantAcc.lst
             (if x ≠ PyVal.none ∧ x ≠ PyVal.str "" then lb ++ [x] else lb),
           QuantAcc.scl x,
           QuantAcc.lst
             (if x ≠ PyVal.none ∧ x ≠ PyVal.str "" then lb ++ [x] else lb))) ∧
    (∀ x y : PyVal,
        (quantMergeTrace (QuantAcc.scl x) (QuantAcc.scl y)).2 =
          (QuantAcc.scl x, QuantAcc.scl y)) := by
  refine ⟨fun a b => rfl, fun la lb => rfl, fun la y => ?_, fun x lb => ?_,
    fun x y => rfl⟩
  · simp only [quantMergeTrace]
    split <;> rename_i h <;> simp [h]
  · simp only [quantMergeTrace]
    split <;> rename_i h <;> simp [h]

/-- Error message of the `ValueError` raised by `AggregateFn.__init__`
(src lines 63-68); this is the spec's `ConfigurationError`. -/
def configurationErrorMessage : String :=
  "Exactly one of accumulate_row or accumulate_block must be provided."

/-- The accumulator contract object built by `AggregateFn.__init__`
(src lines 28-81): per-group seed, merge, block accumulation, finalize and an
output name. A block is modelled as the list of its rows. -/
structure AggregateFn (K A R U : Type) where
  init : K → A
  merge : A → A → A
  accumulate_block : A → List R → A
  finalize : A → U
  name : Option String

/-- Model of `AggregateFn.__init__` (src lines 28-81): rejects the call with
the `ValueError` when neither or both of `accumulate_row` /
`accumulate_block` are supplied; when only `accumulate_row` is supplied it
synthesizes `accumulate_block` by folding `accumulate_row` over the rows of
the block in iteration order (src lines 69-75). -/
def mkAggregateFn {K A R U : Type} (init : K → A) (merge : A → A → A)
    (accumulate_row : Option (A → R → A))
    (accumulate_block : Option (A → List R → A))
    (finalize : A → U) (name : Option String) :
    Except String (AggregateFn K A R U) :=
  match accumulate_row, accumulate_block with
  | Option.none, Option.none => Except.error configurationErrorMessage
  | Option.some _, Option.some _ => Except.error configurationErrorMessage
  | Option.some rowFn, Option.none =>
      Except.ok ⟨init, merge, fun a block => List.foldl rowFn a block,
        finalize, name⟩
  | Option.none, Option.some blockFn =>
      Except.ok ⟨init, merge, blockFn, finalize, name⟩

/-- C1: constructing an `AggregateFn` with neither or with both of
`accumulate_row` / `accumulate_block` fails with the configuration error,
while supplying exactly one of them succeeds; the execution hooks of the
constructed value are total functions, so no such error can arise later. -/
theorem aggregateFn_requires_exactly_one {K A R U : Type}
    (i : K → A) (m : A → A → A) (fin : A → U) (nm : Option String) :
    (mkAggregateFn (R := R) i m Option.none Option.none fin nm =
        Except.error configurationErrorMessage) ∧
    (∀ (rowFn : A → R → A) (blockFn : A → List R → A),
        mkAggregateFn i m (Option.some rowFn) (Option.some blockFn) fin nm =
          Except.error configurationErrorMessage) ∧
    (∀ rowFn : A → R → A, ∃ agg,
        mkAggregateFn i m (Option.some rowFn) Option.none fin nm =
          Except.ok agg) ∧
    (∀ blockFn : A → List R → A, ∃ agg,
        mkAggregateFn i m Option.none (Option.some blockFn) fin nm =
          Except.ok agg) :=
  ⟨rfl, fun _ _ => rfl, fun _ => ⟨_, rfl⟩, fun _ => ⟨_, rfl⟩⟩

/-- C7: when only `accumulate_row` is supplied, the synthesized
`accumulate_block` is the left fold of `accumulate_row` over the block's rows
in iteration order; it peels rows off one at a time from the front and leaves
the accumulator unchanged on an empty block. -/
theorem synthesized_accumulate_block_is_foldl {K A R U : Type}
    (i : K → A) (m : A → A → A) (rowFn : A → R → A) (fin : A → U)
    (nm : Option String) :
    ∃ agg : AggregateFn K A R U,
      mkAggregateFn i m (Option.some rowFn) Option.none fin nm =
        Except.ok agg ∧
      (∀ (a : A) (rs : List R),
          agg.accumulate_block a rs = List.foldl rowFn a rs) ∧
      (∀ (a : A) (r : R) (rs : List R),
          agg.accumulate_block a (r :: rs) =
            agg.accumulate_block (rowFn a r) rs) ∧
      (∀ a : A, agg.accumulate_block a [] = a) :=
  ⟨_, rfl, fun _ _ => rfl, fun _ _ _ => rfl, fun _ => rfl⟩

/-- Model of `Count.__init__`'s `init` (src lines 100-108): the empty count. -/
def countInit {K : Type} (_k : K) : ℕ := 0

/-- Model of `Count.__init__`'s `accumulate_block` (src lines 100-108): adds
the block's `num_rows()` to the accumulator. -/
def countAccumulateBlock {R : Type} (a : ℕ) (block : List R) : ℕ :=
  a + block.length

/-- Model of `Count.__init__`'s `merge` (src lines 100-108). -/
def countMerge (a b : ℕ) : ℕ := a + b

/-- Count's `finalize`: the identity default of `AggregateFn.__init__`
(src line 34), since `Count.__init__` does not supply one. -/
def countFinalize (a : ℕ) : ℕ := a

/-- A merge tree over blocks: the engine may accumulate each block separately
and combine the per-block accumulators in an arbitrary tree shape. -/
inductive MergeTree (R : Type) where
  | leaf : List R → MergeTree R
  | node : MergeTree R → MergeTree R → MergeTree R

/-- Total number of rows across all blocks at the leaves of a merge tree. -/
def MergeTree.totalRows {R : Type} : MergeTree R → ℕ
  | .leaf b => b.length
  | .node l r => l.totalRows + r.totalRows

/-- Count evaluation of a merge tree: each leaf block is accumulated from the
per-group seed, and inner nodes combine the partial counts with merge. -/
def countEval {K R : Type} (k : K) : MergeTree R → ℕ
  | .leaf b => countAccumulateBlock (countInit k) b
  | .node l r => countMerge (countEval k l) (countEval k r)

/-- C8: finalizing a Count accumulator that has processed zero rows yields 0,
and for every partitioning of the rows into blocks and every merge tree over
the per-block accumulators, the finalized count equals the total number of
rows. -/
theorem count_total_rows {K R : Type} :
    (∀ k : K, countFinalize (countAccumulateBlock (countInit k)
        ([] : List R)) = 0) ∧
    (∀ (k : K) (t : MergeTree R),
        countFinalize (countEval k t) = t.totalRows) := by
  constructor
  · intro k
    rfl
  · intro k t
    induction t with
    | leaf b =>
        simp [countEval, countFinalize, countAccumulateBlock, countInit,
          MergeTree.totalRows]
    | node l r ihl ihr =>
        simp [countEval, countFinalize, countMerge, MergeTree.totalRows,
          ← ihl, ← ihr]

/-- Model of the base `AggregateFn._validate` (src lines 83-85): the body is
`pass`, so it accepts every schema. A schema is modelled as an optional list
of column names. -/
def aggregateFnValidate (_schema : Option (List String)) :
    Except String Unit :=
  Except.ok ()

/-- Modelled from the spec: `_validate_key_fn` (imported from
`ray.data.block`, which is not under `src/`). Per the spec it "fails with a
`SchemaValidationError` if the aggregation's key column is absent or of an
incompatible type"; type compatibility is abstracted away, leaving the
column-presence check, and a missing schema or key-function places no
constraint. -/
def validateKeyFn (schema : Option (List String)) (key : Option String) :
    Except String Unit :=
  match schema, key with
  | Option.some cols, Option.some k =>
      if k ∈ cols then Except.ok () else Except.error "SchemaValidationError"
  | _, _ => Except.ok ()

/-- Model of `_AggregateOnKeyBase._validate` (src lines 88-93): delegates to
`_validate_key_fn` with the stored key function. All key-based subclasses
(Sum, Min, Max, Mean, Std, AbsMax, Quantile) inherit this override, while
`Count` keeps the base no-op hook. -/
def aggregateOnKeyValidate (keyFn : Option String)
    (schema : Option (List String)) : Except String Unit :=
  validateKeyFn schema keyFn

/-- C9: the base validate hook accepts every schema (it is a no-op), and the
key-based subclasses delegate schema validation to the key-function check. -/
theorem validate_hooks_spec :
    (∀ schema : Option (List String),
        aggregateFnValidate schema = Except.ok ()) ∧
    (∀ (keyFn : Option String) (schema : Option (List String)),
        aggregateOnKeyValidate keyFn schema = validateKeyFn schema keyFn) :=
  ⟨fun _ => rfl, fun _ _ => rfl⟩

/-- Model of `Std.__init__.finalize` (src lines 308-314): 0.0 when the merged
count is below 2, otherwise the real square root of `M2 / (count - ddof)`. -/
noncomputable def stdFinalize (ddof : ℚ) (a : ℚ × ℚ × ℚ) : ℝ :=
  if a.2.2 < 2 then 0
  else Real.sqrt ((a.1 : ℝ) / ((a.2.2 : ℝ) - (ddof : ℝ)))

/-- Default of the `ddof` parameter in `Std.__init__`'s signature
(src line 265). -/
def stdDefaultDdof : ℚ := 1

/-- C4: merging two Std accumulators yields exactly the triple with
`count = n_a + n_b`, `mean = (mean_a*n_a + mean_b*n_b)/count` and
`M2 = M2_a + M2_b + (mean_b - mean_a)^2 * n_a * n_b / count`. -/
theorem stdMerge_formula (M2a meanA nA M2b meanB nB : ℚ)
    (_h : 0 < nA + nB) :
    stdMerge (M2a, meanA, nA) (M2b, meanB, nB) =
      (M2a + M2b + (meanB - meanA) ^ 2 * nA * nB / (nA + nB),
       (meanA * nA + meanB * nB) / (nA + nB),
       nA + nB) := rfl

/-- Witness for C4 at a concrete pair of accumulators. -/
theorem stdMerge_formula_witness :
    stdMerge (0, 1, 1) (0, 3, 1) =
      (0 + 0 + (3 - 1) ^ 2 * 1 * 1 / (1 + 1),
       (1 * 1 + 3 * 1) / (1 + 1),
       1 + 1) :=
  stdMerge_formula 0 1 1 0 3 1 (by norm_num)

/-- C5: the base Std finalize returns 0.0 for any accumulator with count
below 2 and `sqrt(M2 / (count - ddof))` otherwise, and the constructor's
`ddof` defaults to 1. -/
theorem stdFinalize_spec (ddof M2 mean count : ℚ) :
    stdFinalize ddof (M2, mean, count) =
      (if count < 2 then (0 : ℝ)
       else Real.sqrt ((M2 : ℝ) / ((count : ℝ) - (ddof : ℝ)))) ∧
    stdDefaultDdof = 1 :=
  ⟨rfl, rfl⟩

/-- Python `int(x)` on a rational: truncation toward zero. -/
def pyInt (x : ℚ) : ℤ := if 0 ≤ x then ⌊x⌋ else ⌈x⌉

/-- Insertion of a value into an ascending list; building block of the model
of Python's `sorted`. -/
def pyInsert (x : ℚ) : List ℚ → List ℚ
  | [] => [x]
  | y :: ys => if x ≤ y then x :: y :: ys else y :: pyInsert x ys

/-- Model of Python's `sorted` on rationals: ascending insertion sort. -/
def pySort (l : List ℚ) : List ℚ := l.foldr pyInsert []

/-- Python's `round` to the nearest integer with ties to even (banker's
rounding). -/
def roundHalfEven (x : ℚ) : ℤ :=
  if x - (⌊x⌋ : ℚ) = 1 / 2 then (if ⌊x⌋ % 2 = 0 then ⌊x⌋ else ⌊x⌋ + 1)
  else round x

/-- Python's `round(x, 5)`: round to five decimal digits. -/
def pyRound5 (x : ℚ) : ℚ := (roundHalfEven (x * 100000) : ℚ) / 100000

/-- Rank `k = (len(input_values) - 1) * q` computed by
`Quantile.__init__.percentile` (src line 419). -/
def pRank (q : ℚ) (input_values : List ℚ) : ℚ :=
  (((pySort input_values).length : ℚ) - 1) * q

/-- Lower index `f = math.floor(k)` of `percentile` (src line 420). -/
def pFloor (q : ℚ) (input_values : List ℚ) : ℤ := ⌊pRank q input_values⌋

/-- Upper index `c = math.ceil(k)` of `percentile` (src line 421). -/
def pCeil (q : ℚ) (input_values : List ℚ) : ℤ := ⌈pRank q input_values⌉

/-- Model of `Quantile.__init__.percentile` (src lines 415-426) with the
identity key, the only key it is ever called with. An empty input gives
`None`; otherwise the input is sorted and the linear-interpolated order
statistic at rank `k = (n - 1) * q` is taken, exactly when `k` is integral
and rounded to five decimals otherwise. Out-of-range indexing (unreachable
for `0 ≤ q ≤ 1`) is modelled with a default of 0. -/
def percentile (q : ℚ) (input_values : List ℚ) : Option ℚ :=
  if input_values = [] then Option.none
  else if pFloor q input_values = pCeil q input_values then
    Option.some
      ((pySort input_values).getD (pyInt (pRank q input_values)).toNat 0)
  else
    Option.some (pyRound5
      ((pySort input_values).getD (pFloor q input_values).toNat 0 *
          ((pCeil q input_values : ℚ) - pRank q input_values) +
        (pySort input_values).getD (pCeil q input_values).toNat 0 *
          (pRank q input_values - (pFloor q input_values : ℚ))))

/-- Sorting does not change the number of values: insertion step. -/
theorem pyInsert_length (x : ℚ) (l : List ℚ) :
    (pyInsert x l).length = l.length + 1 := by
  induction l with
  | nil => rfl
  | cons y ys ih =>
      simp only [pyInsert]
      split
      · rfl
      · simp [ih]

/-- Sorting does not change the number of values. -/
theorem pySort_length (l : List ℚ) : (pySort l).length = l.length := by
  induction l with
  | nil => rfl
  | cons x xs ih =>
      simp only [pySort, List.foldr] at ih ⊢
      rw [pyInsert_length, ih, List.length_cons]

/-- C6: for every non-empty value list and quantile `0 ≤ q ≤ 1`, the base
Quantile finalize sorts the list, takes rank `k = (n - 1) * q`, and returns
the exact order statistic when `floor k = ceil k` and otherwise the linear
interpolation `value[floor k] * (ceil k - k) + value[ceil k] * (k - floor k)`
rounded to five decimal digits. -/
theorem percentile_formula (q : ℚ) (vs : List ℚ) (hne : vs ≠ [])
    (hq0 : 0 ≤ q) (_hq1 : q ≤ 1) :
    percentile q vs =
      Option.some
        (if pFloor q vs = pCeil q vs then
          (pySort vs).getD (pFloor q vs).toNat 0
        else
          pyRound5
            ((pySort vs).getD (pFloor q vs).toNat 0 *
                ((pCeil q vs : ℚ) - pRank q vs) +
              (pySort vs).getD (pCeil q vs).toNat 0 *
                (pRank q vs - (pFloor q vs : ℚ)))) := by
  have hn : 1 ≤ (pySort vs).length := by
    rw [pySort_length]
    exact List.length_pos.mpr hne
  have hk0 : 0 ≤ pRank q vs := by
    apply mul_nonneg _ hq0
    rw [sub_nonneg]
    exact_mod_cast hn
  have hpy : pyInt (pRank q vs) = pFloor q vs := by
    unfold pyInt pFloor
    exact if_pos hk0
  unfold percentile
  rw [if_neg hne, hpy]
  by_cases h : pFloor q vs = pCeil q vs
  · rw [if_pos h, if_pos h]
  · rw [if_neg h, if_neg h]

/-- Witness for C6: the formula theorem applied at `q = 1/2` on
`[1, 2, 3, 4]`, with all hypotheses discharged concretely. -/
theorem percentile_formula_witness :
    percentile (1/2) [1, 2, 3, 4] =
      Option.some
        (if pFloor (1/2) [1, 2, 3, 4] = pCeil (1/2) [1, 2, 3, 4] then
          (pySort [1, 2, 3, 4]).getD (pFloor (1/2) [1, 2, 3, 4]).toNat 0
        else
          pyRound5
            ((pySort [1, 2, 3, 4]).getD
                  (pFloor (1/2) [1, 2, 3, 4]).toNat 0 *
                ((pCeil (1/2) [1, 2, 3, 4] : ℚ) - pRank (1/2) [1, 2, 3, 4]) +
              (pySort [1, 2, 3, 4]).getD
                  (pCeil (1/2) [1, 2, 3, 4]).toNat 0 *
                (pRank (1/2) [1, 2, 3, 4] -
                  (pFloor (1/2) [1, 2, 3, 4] : ℚ)))) :=
  percentile_formula (1/2) [1, 2, 3, 4] (by simp) (by norm_num) (by norm_num)

/-- Concrete evaluation: the median of `[1, 2, 3, 4]` under the base Quantile
finalize is 2.5 (rank 1.5, interpolating between 2 and 3). -/
theorem percentile_half_median :
    percentile (1/2) [1, 2, 3, 4] = Option.some (5/2) := by
  have hs : pySort [1, 2, 3, 4] = [1, 2, 3, 4] := by
    norm_num [pySort, pyInsert]
  have hr : pRank (1/2) [1, 2, 3, 4] = 3/2 := by
    rw [pRank, hs]
    norm_num
  have hf : pFloor (1/2) [1, 2, 3, 4] = 1 := by
    rw [pFloor, hr]
    norm_num
  have hc : pCeil (1/2) [1, 2, 3, 4] = 2 := by
    rw [pCeil, hr, Int.ceil_eq_iff]
    norm_num
  rw [percentile, if_neg (by simp), hf, hc, hr, hs]
  rw [if_neg (by norm_num)]
  have hg1 : ([1, 2, 3, 4] : List ℚ).getD ((1 : ℤ)).toNat 0 = 2 := rfl
  have hg2 : ([1, 2, 3, 4] : List ℚ).getD ((2 : ℤ)).toNat 0 = 3 := rfl
  rw [hg1, hg2]
  have harg : (2 : ℚ) * ((2 : ℤ) - 3/2) + 3 * (3/2 - (1 : ℤ)) = 5/2 := by
    norm_num
  rw [harg, pyRound5]
  have hmul : (5/2 : ℚ) * 100000 = 250000 := by norm_num
  rw [hmul, roundHalfEven]
  rw [if_neg (by norm_num)]
  rw [show round (250000 : ℚ) = 250000 by norm_num [round_eq]]
  norm_num

/-- Concrete evaluation: the median of the singleton `[5]` under the base
Quantile finalize is exactly 5 (integral rank, no rounding). -/
theorem percentile_half_single :
    percentile (1/2) [5] = Option.some 5 := by
  have hr : pRank (1/2) [5] = 0 := by
    rw [pRank]
    norm_num [pySort, pyInsert]
  have hf : pFloor (1/2) [5] = 0 := by
    rw [pFloor, hr]
    norm_num
  have hc : pCeil (1/2) [5] = 0 := by
    rw [pCeil, hr]
    norm_num
  rw [percentile, if_neg (by simp), hf, hc, if_pos rfl, hr]
  rfl

/-- Modelled from the spec: the state of the null-handling wrapper layer
(`ray.data._internal.null_aggregate`, which is not under `src/`), the tagged
variant "{Empty | Poisoned | Value(AggState)}" of spec section 4.2. -/
inductive NullAcc (α : Type) where
  | empty : NullAcc α
  | poison : NullAcc α
  | value : α → NullAcc α
deriving DecidableEq

/-- Modelled from the spec: `_null_wrap_init` — the wrapped `init` returns
"no-value". -/
def nullWrapInit {α : Type} : NullAcc α := NullAcc.empty

/-- Modelled from the spec: `_null_wrap_merge` — "no-value" is the identity
element, poison is absorbing, and two values delegate to the base merge. -/
def nullWrapMerge {α : Type} (base : α → α → α) :
    NullAcc α → NullAcc α → NullAcc α
  | .empty, b => b
  | a, .empty => a
  | .poison, _ => .poison
  | _, .poison => .poison
  | .value a, .value b => .value (base a b)

/-- Modelled from the spec: `_null_wrap_accumulate_block` — the base
vectorized block function classifies the block ("no data" gives no-value, a
null under strict mode gives poison, otherwise a computed partial state) and
the result is merged into the running state with the wrapped merge. -/
def nullWrapAccumulateBlock {α β : Type} (blockFn : List β → NullAcc α)
    (baseMerge : α → α → α) (a : NullAcc α) (block : List β) : NullAcc α :=
  nullWrapMerge baseMerge a (blockFn block)

/-- Modelled from the spec: `_null_wrap_finalize` — no-value and poison
finalize to a null output, a value finalizes with the base finalize (whose
own `None` for an empty list passes through). -/
def nullWrapFinalize {α β : Type} (base : α → Option β) :
    NullAcc α → Option β
  | .empty => Option.none
  | .poison => Option.none
  | .value a => base a

/-- The list/list branch of `Quantile.__init__.merge` (src lines 384-387),
the only branch reachable in the block pipeline where every base state is a
value list: `a.extend(b); return a` returns the concatenation. The full
branch structure is modelled by `quantMerge`. -/
def quantMergeLists (a b : List ℚ) : List ℚ := a ++ b

/-- Model of `Quantile.__init__.block_row_ls` (src lines 406-411) composed
with the wrapper's block classification: a block is the list of its already
extracted, non-null column values; an empty block reports "no data". -/
def quantBlockRowLs (block : List ℚ) : NullAcc (List ℚ) :=
  if block = [] then NullAcc.empty else NullAcc.value block

/-- The wrapped `accumulate_block` of the Quantile aggregation
(src lines 431-435). -/
def quantAccumulateBlock (a : NullAcc (List ℚ)) (block : List ℚ) :
    NullAcc (List ℚ) :=
  nullWrapAccumulateBlock quantBlockRowLs quantMergeLists a block

/-- End-to-end Quantile aggregation over a partition of the data into
blocks: each block is accumulated from the wrapped init seed, the per-block
states are merged with the wrapped merge starting from the seed, and the
merged state is finalized with the wrapped percentile. -/
def quantileAggregate (q : ℚ) (blocks : List (List ℚ)) : Option ℚ :=
  nullWrapFinalize (percentile q)
    (List.foldl (nullWrapMerge quantMergeLists) nullWrapInit
      (blocks.map (fun b => quantAccumulateBlock nullWrapInit b)))

/-- Accumulating a single block from the wrapped seed yields no-value for an
empty block and the block's value list otherwise. -/
theorem quantAccumulateBlock_seed (b : List ℚ) :
    quantAccumulateBlock nullWrapInit b =
      if b = [] then (NullAcc.empty : NullAcc (List ℚ))
      else NullAcc.value b := by
  by_cases hb : b = [] <;>
    simp [quantAccumulateBlock, nullWrapAccumulateBlock, quantBlockRowLs,
      nullWrapInit, nullWrapMerge, hb]

/-- Folding the wrapped merge over per-block states from a value state
concatenates all block contents onto it. -/
theorem quantFold_value (l : List ℚ) (blocks : List (List ℚ)) :
    List.foldl (nullWrapMerge quantMergeLists) (NullAcc.value l)
        (blocks.map (fun b => quantAccumulateBlock nullWrapInit b)) =
      NullAcc.value (l ++ blocks.flatten) := by
  induction blocks generalizing l with
  | nil => simp
  | cons b bs ih =>
      by_cases hb : b = []
      · subst hb
        simpa [quantAccumulateBlock_seed, nullWrapMerge] using ih l
      · simpa [quantAccumulateBlock_seed, hb, nullWrapMerge, quantMergeLists,
          List.append_assoc] using ih (l ++ b)

/-- Folding the wrapped merge over the per-block states from the wrapped
seed yields no-value when all blocks are empty and otherwise the value list
of all rows in block order. -/
theorem quantFold_seed (blocks : List (List ℚ)) :
    List.foldl (nullWrapMerge quantMergeLists) nullWrapInit
        (blocks.map (fun b => quantAccumulateBlock nullWrapInit b)) =
      if blocks.flatten = [] then (NullAcc.empty : NullAcc (List ℚ))
      else NullAcc.value blocks.flatten := by
  induction blocks with
  | nil => simp [nullWrapInit]
  | cons b bs ih =>
      by_cases hb : b = []
      · subst hb
        simpa [quantAccumulateBlock_seed, nullWrapMerge, nullWrapInit]
          using ih
      · have hj : (b :: bs).flatten ≠ [] := by
          simp [hb]
        rw [if_neg hj]
        simp only [List.map_cons, List.foldl_cons]
        rw [show nullWrapMerge quantMergeLists nullWrapInit
              (quantAccumulateBlock nullWrapInit b) = NullAcc.value b by
            rw [quantAccumulateBlock_seed, if_neg hb]
            rfl]
        rw [quantFold_value]
        simp

/-- C2: for every list of non-null values and every way of splitting it into
blocks, accumulating each block from the wrapped init seed, merging the
per-block states, and finalizing equals finalizing the accumulator built
from the whole list at once; in particular `Quantile(q = 1/2)` on
`[1, 2, 3, 4]` finalizes to 2.5 and on `[5]` to 5. -/
theorem quantile_partition_merge_consistent (q : ℚ)
    (blocks : List (List ℚ)) :
    quantileAggregate q blocks = percentile q blocks.flatten ∧
    quantileAggregate (1/2) [[1, 2, 3, 4]] = Option.some (5/2) ∧
    quantileAggregate (1/2) [[5]] = Option.some 5 := by
  have hmain : ∀ (p : ℚ) (bs : List (List ℚ)),
      quantileAggregate p bs = percentile p bs.flatten := by
    intro p bs
    unfold quantileAggregate
    rw [quantFold_seed]
    by_cases hj : bs.flatten = []
    · rw [if_pos hj, hj]
      simp [nullWrapFinalize, percentile]
    · rw [if_neg hj]
      rfl
  refine ⟨hmain q blocks, ?_, ?_⟩
  · rw [hmain (1/2) [[1, 2, 3, 4]]]
    simpa using percentile_half_median
  · rw [hmain (1/2) [[5]]]
    simpa using percentile_half_single
